import Mathlib

/-!
Verification of the latest-file selection logic, config parser and row
builder of the ftp-accounts-daily-update repository.

The remote directory-listing capability is modelled as an oracle of type
`String → Except String (List SFTPAttr)`: for a remote path it either
yields the directory entries (`paramiko` attribute records) or raises an
error message.  Timestamps are epoch seconds (`Nat`); the local timezone
is an explicit offset `tz : Int` in seconds, so that
`datetime.fromtimestamp(t)` becomes arithmetic on `t + tz`.
-/

namespace FtpDaily

/-- One entry of `sftp.listdir_attr`: a filename, a `st_mode` bit mask and a
modification time in epoch seconds. -/
structure SFTPAttr where
  filename : String
  st_mode : Nat
  st_mtime : Nat
deriving DecidableEq, Repr

/-- `stat.S_ISREG`: the file-type bits (octal 170000) equal octal 100000. -/
def S_ISREG (m : Nat) : Bool := m &&& 61440 == 32768

/-- `stat.S_ISDIR`: the file-type bits equal octal 040000. -/
def S_ISDIR (m : Nat) : Bool := m &&& 61440 == 16384

/-- `str.lower()` (character-wise, ASCII as in the config data). -/
def toLowerStr (s : String) : String := String.mk (s.toList.map Char.toLower)

/-- `str.strip()`: drop leading and trailing whitespace. -/
def trimStr (s : String) : String :=
  String.mk (((s.toList.dropWhile Char.isWhitespace).reverse.dropWhile
    Char.isWhitespace).reverse)

/-- Split a character list at every occurrence of `sep`. -/
def splitOnChar (sep : Char) : List Char → List (List Char)
  | [] => [[]]
  | x :: rest =>
    if x = sep then [] :: splitOnChar sep rest
    else
      match splitOnChar sep rest with
      | h :: t => (x :: h) :: t
      | [] => [[x]]

/-- `[s.lower() for s in (name_filters or []) if s]`. -/
def loweredFilters (name_filters : List String) : List String :=
  (name_filters.filter (fun s => s ≠ "")).map toLowerStr

/-- `name.startswith(s)`, as character-list prefix. -/
def startsWithStr (s name : String) : Bool := decide (s.toList <+: name.toList)

/-- `any(name.lower().startswith(s) for s in lowered)`. -/
def filterMatch (lowered : List String) (name : String) : Bool :=
  lowered.any (fun s => startsWithStr s (toLowerStr name))

/-- `remote_folder.rstrip('/')`. -/
def rstripSlash (s : String) : String :=
  String.mk (s.toList.reverse.dropWhile (fun c => c = '/')).reverse

/-- `f"{remote_folder.rstrip('/')}/{d.filename}"`. -/
def subfolderPath (remote_folder : String) (dirname : String) : String :=
  rstripSlash remote_folder ++ "/" ++ dirname

/-- `SFTPConnector._collect_candidate_files`: regular files at the path,
restricted to the name filters when given; when that yields nothing and
filters exist, the union of the regular files directly inside each
subdirectory whose name starts with a filter (one level only). -/
def collect_candidate_files (listing : String → Except String (List SFTPAttr))
    (remote_folder : String) (name_filters : List String) :
    Except String (List SFTPAttr) :=
  match listing remote_folder with
  | .error err => .error err
  | .ok entries =>
    let files0 := entries.filter (fun f => S_ISREG f.st_mode)
    let lowered := loweredFilters name_filters
    let files := if !lowered.isEmpty && !files0.isEmpty
      then files0.filter (fun f => filterMatch lowered f.filename)
      else files0
    if !files.isEmpty then .ok files
    else if !lowered.isEmpty then
      let dirs := entries.filter (fun d => S_ISDIR d.st_mode)
      let matched_dirs := dirs.filter (fun d => filterMatch lowered d.filename)
      let collected := matched_dirs.foldl (fun acc d =>
        match listing (subfolderPath remote_folder d.filename) with
        | .error _ => acc
        | .ok subentries => acc ++ subentries.filter (fun f => S_ISREG f.st_mode))
        []
      if !collected.isEmpty then .ok collected else .ok []
    else .ok []

/-- Accumulator pass of Python's `max(files, key=lambda f: f.st_mtime)`:
a later element replaces the current best only when strictly greater, so
the first maximal element wins. -/
def pyMaxGo (best : SFTPAttr) : List SFTPAttr → SFTPAttr
  | [] => best
  | f :: rest => pyMaxGo (if best.st_mtime < f.st_mtime then f else best) rest

/-- `max(files, key=lambda f: f.st_mtime)` guarded by emptiness. -/
def pyMax : List SFTPAttr → Option SFTPAttr
  | [] => none
  | x :: xs => some (pyMaxGo x xs)

/-- Seconds of the local clock: `t` shifted by the timezone offset. -/
def localSeconds (tz : Int) (t : Nat) : Int := (t : Int) + tz

/-- `datetime.fromtimestamp(t).date()` as a day number: the local seconds
floor-divided by 86400. -/
def localDay (tz : Int) (t : Nat) : Int := Int.fdiv (localSeconds tz t) 86400

/-- Second within the local day, in `[0, 86400)`. -/
def secondOfDay (tz : Int) (t : Nat) : Nat :=
  (Int.fmod (localSeconds tz t) 86400).toNat

/-- Proleptic-Gregorian civil date `(year, month, day)` of a day number
(days since 1970-01-01), as computed by Python's `datetime`. -/
def civilFromDays (z0 : Int) : Int × Nat × Nat :=
  let z := z0 + 719468
  let era : Int := Int.fdiv z 146097
  let doe : Nat := (z - era * 146097).toNat
  let yoe : Nat := (doe - doe / 1460 + doe / 36524 - doe / 146096) / 365
  let doy : Nat := doe - (365 * yoe + yoe / 4 - yoe / 100)
  let mp : Nat := (5 * doy + 2) / 153
  let d : Nat := doy - (153 * mp + 2) / 5 + 1
  let m : Nat := if mp < 10 then mp + 3 else mp - 9
  let y : Int := (yoe : Int) + era * 400
  (if m ≤ 2 then y + 1 else y, m, d)

/-- Zero-pad a number to two digits (`%m`, `%d`, `%H`, `%M`, `%S`). -/
def pad2 (n : Nat) : String := if n < 10 then "0" ++ toString n else toString n

/-- Render a year for `%Y` (zero-padded to four digits). -/
def pad4 (y : Int) : String :=
  if 0 ≤ y ∧ y < 10 then "000" ++ toString y
  else if 0 ≤ y ∧ y < 100 then "00" ++ toString y
  else if 0 ≤ y ∧ y < 1000 then "0" ++ toString y
  else toString y

/-- `datetime.fromtimestamp(t).strftime('%m/%d/%Y %H:%M:%S')`. -/
def formatTs (tz : Int) (t : Nat) : String :=
  let ymd := civilFromDays (localDay tz t)
  let sod := secondOfDay tz t
  pad2 ymd.2.1 ++ "/" ++ pad2 ymd.2.2 ++ "/" ++ pad4 ymd.1 ++ " " ++
    pad2 (sod / 3600) ++ ":" ++ pad2 (sod % 3600 / 60) ++ ":" ++ pad2 (sod % 60)

/-- `SFTPConnector.get_latest_file_info`: name and formatted mtime of the
candidate with the maximum modification time, or `(None, None)`. -/
def get_latest_file_info (tz : Int) (listing : String → Except String (List SFTPAttr))
    (remote_folder : String) (name_filters : List String) :
    Except String (Option String × Option String) :=
  match collect_candidate_files listing remote_folder name_filters with
  | .error err => .error err
  | .ok files =>
    match pyMax files with
    | none => .ok (none, none)
    | some latest => .ok (some latest.filename, some (formatTs tz latest.st_mtime))

/-- `SFTPConnector.get_latest_file_info_before_date`: latest candidate whose
local calendar date is strictly before `before_date`. -/
def get_latest_file_info_before_date (tz : Int)
    (listing : String → Except String (List SFTPAttr))
    (remote_folder : String) (before_date : Int) (name_filters : List String) :
    Except String (Option String × Option String) :=
  match collect_candidate_files listing remote_folder name_filters with
  | .error err => .error err
  | .ok files =>
    if files.isEmpty then .ok (none, none)
    else
      let eligible := files.filter (fun f => localDay tz f.st_mtime < before_date)
      match pyMax eligible with
      | none => .ok (none, none)
      | some latest => .ok (some latest.filename, some (formatTs tz latest.st_mtime))

/-- `SFTPConnector.get_latest_file_info_on_date`: latest candidate whose
local calendar date equals `on_date`. -/
def get_latest_file_info_on_date (tz : Int)
    (listing : String → Except String (List SFTPAttr))
    (remote_folder : String) (on_date : Int) (name_filters : List String) :
    Except String (Option String × Option String) :=
  match collect_candidate_files listing remote_folder name_filters with
  | .error err => .error err
  | .ok files =>
    if files.isEmpty then .ok (none, none)
    else
      let eligible := files.filter (fun f => localDay tz f.st_mtime = on_date)
      match pyMax eligible with
      | none => .ok (none, none)
      | some latest => .ok (some latest.filename, some (formatTs tz latest.st_mtime))

/-- `result[p] = v` on a Python dict modelled as an insertion-ordered
association list: overwrite in place when the key exists, append otherwise. -/
def pyDictInsert {α : Type} (k : String) (v : α) :
    List (String × α) → List (String × α)
  | [] => [(k, v)]
  | (k2, v2) :: rest =>
    if k2 = k then (k2, v) :: rest else (k2, v2) :: pyDictInsert k v rest

/-- The value stored for one prefix by the loop body of
the per-prefix lookup: `(None, None)` when no candidate (or, with a
date, no candidate on the date) exists, otherwise the name and formatted
mtime of the latest candidate. -/
def stepVal (tz : Int) (on_date : Option Int) (files : List SFTPAttr) :
    Option String × Option String :=
  if files.isEmpty then (none, none)
  else
    let files2 := match on_date with
      | some d => files.filter (fun f => localDay tz f.st_mtime = d)
      | none => files
    if files2.isEmpty then (none, none)
    else
      match pyMax files2 with
      | none => (none, none)
      | some latest => (some latest.filename, some (formatTs tz latest.st_mtime))

/-- Loop of the per-prefix lookup over the lowered prefixes. -/
def perPrefixLoop (tz : Int) (listing : String → Except String (List SFTPAttr))
    (remote_folder : String) (on_date : Option Int) :
    List String → List (String × (Option String × Option String)) →
    Except String (List (String × (Option String × Option String)))
  | [], acc => .ok acc
  | p :: rest, acc =>
    match collect_candidate_files listing remote_folder [p] with
    | .error err => .error err
    | .ok files =>
      perPrefixLoop tz listing remote_folder on_date rest
        (pyDictInsert p (stepVal tz on_date files) acc)

/-- The result that steps 1–5 compute for a single prefix `p` used as a
singleton filter list: restricted to the date when one is given, unrestricted
otherwise. -/
def singlePrefixResult (tz : Int) (listing : String → Except String (List SFTPAttr))
    (remote_folder : String) (on_date : Option Int) (p : String) :
    Except String (Option String × Option String) :=
  match on_date with
  | some d => get_latest_file_info_on_date tz listing remote_folder d [p]
  | none => get_latest_file_info tz listing remote_folder [p]

/-- The connector's per-prefix lookup: one dict entry per lowered
non-empty prefix, each computed with that prefix as a singleton filter list,
restricted to `on_date` when given. -/
def get_latest_files_per_prefix (tz : Int)
    (listing : String → Except String (List SFTPAttr))
    (remote_folder : String) (prefixes : List String) (on_date : Option Int) :
    Except String (List (String × (Option String × Option String))) :=
  perPrefixLoop tz listing remote_folder on_date (loweredFilters prefixes) []

/-! ### Config parser (`src/config.py`) -/

/-- The single-quote character. -/
def squote : Char := Char.ofNat 39

/-- The double-quote character. -/
def dquote : Char := Char.ofNat 34

/-- Fuel-indexed worker for `findQuoted` (the fuel, initially the input
length, dominates the number of consumed characters, so it never runs out). -/
def findQuotedGo : Nat → List Char → List String
  | _, [] => []
  | 0, _ => []
  | fuel + 1, c :: rest =>
    if c = squote ∨ c = dquote then
      match rest.findIdx? (fun c2 => c2 = c) with
      | some i => String.mk (rest.take i) :: findQuotedGo fuel (rest.drop (i + 1))
      | none => findQuotedGo fuel rest
    else findQuotedGo fuel rest

/-- All quoted segments of a line, as found by the regex
`'([^']*)'|"([^"]*)"`: at the first quote character that has a matching
closer of the same kind, the enclosed content is captured and scanning
resumes after the closer; an unclosed quote is skipped. -/
def findQuoted (cs : List Char) : List String := findQuotedGo cs.length cs

/-- First quoted segment of a line, as found by `re.search` with the
pattern `(['"])(.*?)\1` (content may be empty, may contain the other
quote kind). -/
def findFirstQuoted : List Char → Option String
  | [] => none
  | c :: rest =>
    if c = squote ∨ c = dquote then
      match rest.findIdx? (fun c2 => c2 = c) with
      | some i => some (String.mk (rest.take i))
      | none => findFirstQuoted rest
    else findFirstQuoted rest

/-- `config._clean_value`: prefer the first quoted segment verbatim; else
strip an unquoted `#` comment and defensively remove surrounding quotes. -/
def clean_value (raw_value : String) : String :=
  let rv := trimStr raw_value
  match findFirstQuoted rv.toList with
  | some content => trimStr content
  | none =>
    let value := trimStr (String.mk ((splitOnChar '#' rv.toList).headD rv.toList))
    let vl := value.toList
    let value2 :=
      if (decide ([dquote] <+: vl) && decide ([dquote] <+: vl.reverse)) ||
         (decide ([squote] <+: vl) && decide ([squote] <+: vl.reverse)) then
        String.mk ((vl.drop 1).dropLast)
      else value
    trimStr value2

/-- `config._normalise_key`: lower-case and keep only letters `a`–`z`. -/
def normalise_key (raw_key : String) : String :=
  String.mk ((toLowerStr raw_key).toList.filter (fun c => decide ('a' ≤ c) && decide (c ≤ 'z')))

/-- Case-insensitive prefix test on character lists. -/
def startsWithCI (pat : List Char) (s : List Char) : Bool :=
  (s.take pat.length).map Char.toLower == pat.map Char.toLower

/-- Fuel-indexed worker for `removeAllCI`. -/
def removeAllCIGo (pat : List Char) : Nat → List Char → List Char
  | _, [] => []
  | 0, cs => cs
  | fuel + 1, c :: rest =>
    if 0 < pat.length ∧ startsWithCI pat (c :: rest) then
      removeAllCIGo pat fuel (List.drop (pat.length - 1) rest)
    else c :: removeAllCIGo pat fuel rest

/-- `re.sub(re.escape(pat), "", s, flags=re.IGNORECASE)`: remove every
(leftmost, non-overlapping) case-insensitive occurrence of `pat`. -/
def removeAllCI (pat : List Char) (cs : List Char) : List Char :=
  removeAllCIGo pat cs.length cs

/-- `str.strip(" _-:")`-style stripping of leading and trailing characters. -/
def stripChars (cs : List Char) (strip : List Char) : List Char :=
  ((cs.dropWhile (fun c => strip.contains c)).reverse.dropWhile
    (fun c => strip.contains c)).reverse

/-- `config._derive_folder_label`. -/
def derive_folder_label (account_name : String) (raw_key : String) : String :=
  let label := trimStr raw_key
  if label = "" then "Folder"
  else
    let stripped := String.mk
      (stripChars (removeAllCI account_name.toList label.toList) [' ', '_', '-', ':'])
    let label2 := if stripped = "" then trimStr raw_key else stripped
    let label3 := String.mk
      (label2.toList.map (fun c => if c = '_' ∨ c = '-' then ' ' else c))
    let label4 := match label3.toList with
      | [] => label3
      | c :: rest2 => String.mk (c.toUpper :: rest2)
    if label4 = "" then "Folder" else label4

/-- `config._parse_folder_value`: the first quoted segment that looks like
a path (starts with `/` or contains `/`) is the path — otherwise the whole
trimmed value is — and the remaining quoted segments are filters. -/
def parse_folder_value (raw : String) : String × List String :=
  let value := trimStr raw
  let segments := (findQuoted value.toList).filter (fun s => s ≠ "")
  let path := match segments.find?
      (fun seg => decide (['/'] <+: seg.toList) || seg.toList.contains '/') with
    | some seg => seg
    | none => if value = "" then "/" else value
  let filters := segments.filter (fun seg => seg ≠ path)
  (if path = "" then "/" else path, filters)

/-- A configured folder: display label, remote path, name filters. -/
structure Folder where
  label : String
  path : String
  filters : List String
deriving DecidableEq, Repr

/-- An account record under construction (a Python dict: any of the
credential keys may be absent). -/
structure Account where
  name : String
  host : Option String
  port : Option Nat
  username : Option String
  password : Option String
  folders : List Folder
deriving DecidableEq, Repr

/-- Apply `f` to the last element of a list (the `last_folder` alias: the
most recently appended folder is the list's last element). -/
def updateLast {α : Type} (f : α → α) : List α → List α
  | [] => []
  | [x] => [f x]
  | x :: y :: rest => x :: updateLast f (y :: rest)

/-- Append `extra` filters to a folder, deduplicated case-insensitively
against the existing filters (and against each other). -/
def appendFilters (fol : Folder) (extra : List String) : Folder :=
  let res := extra.foldl
    (fun st f => if st.2.contains (toLowerStr f) then st
      else (st.1 ++ [f], st.2 ++ [toLowerStr f]))
    (fol.filters, fol.filters.map toLowerStr)
  { fol with filters := res.1 }

/-- Characters allowed by the hostname regex `([a-zA-Z0-9.-]+)`. -/
def hostChar (c : Char) : Bool := c.isAlpha || c.isDigit || c = '.' || c = '-'

/-- Leftmost maximal run of characters satisfying `p` (a `+` regex). -/
def firstRun (p : Char → Bool) : List Char → Option (List Char)
  | [] => none
  | c :: rest => if p c then some (c :: rest.takeWhile p) else firstRun p rest

/-- `re.search(r"([a-zA-Z0-9.-]+)", value)`. -/
def findHostMatch (value : String) : Option String :=
  (firstRun hostChar value.toList).map String.mk

/-- Digits to the number they denote. -/
def digitsToNat (cs : List Char) : Nat := cs.foldl (fun n c => n * 10 + (c.toNat - 48)) 0

/-- `re.search(r"(\d{2,5})", value)`: at the leftmost position where at
least two digits start, greedily take up to five. -/
def findPortRun : List Char → Option Nat
  | c1 :: c2 :: rest =>
    if c1.isDigit && c2.isDigit then
      some (digitsToNat (((c1 :: c2 :: rest).takeWhile Char.isDigit).take 5))
    else findPortRun (c2 :: rest)
  | _ => none

/-- `re.findall(r"\d+", value)` first element, as a number. -/
def firstDigitRun (cs : List Char) : Option Nat :=
  (firstRun Char.isDigit cs).map digitsToNat

/-- One `key: value` (or continuation) line of a config block, applied to
the account under construction (`load_multiple_configs_from_file` body). -/
def processLine (acc : Account) (line : String) : Account :=
  if decide (['-', '-'] <+: line.toList) then acc
  else if !(line.toList.contains ':') then
    if acc.folders.isEmpty then acc
    else
      let extra := (parse_folder_value line).2
      if extra.isEmpty then acc
      else { acc with folders := updateLast (fun fol => appendFilters fol extra) acc.folders }
  else
    let raw_key := String.mk (line.toList.takeWhile (fun c => c ≠ ':'))
    let raw_value := String.mk ((line.toList.dropWhile (fun c => c ≠ ':')).drop 1)
    let value := clean_value raw_value
    let key_norm := normalise_key raw_key
    if key_norm = "host" ∨ key_norm = "hosturl" ∨ key_norm = "ftpurl" ∨ key_norm = "url" then
      let acc1 := match findHostMatch value with
        | some h => { acc with host := some h }
        | none => acc
      match findPortRun value.toList with
      | some p => { acc1 with port := some p }
      | none => acc1
    else if key_norm = "username" then { acc with username := some value }
    else if key_norm = "password" then { acc with password := some value }
    else if key_norm = "port" then
      match firstDigitRun value.toList with
      | some p => { acc with port := some p }
      | none => acc
    else if key_norm = "folders" then acc
    else if key_norm = "folder" then
      let pf := parse_folder_value value
      { acc with folders := acc.folders ++
          [{ label := "Folder", path := if pf.1 = "" then "/" else pf.1, filters := pf.2 }] }
    else if key_norm = "locations" then acc
    else
      let folder_label := derive_folder_label acc.name raw_key
      let pf := parse_folder_value value
      { acc with folders := acc.folders ++
          [{ label := folder_label, path := pf.1, filters := pf.2 }] }

/-- Length of the run of dashes at the head of the list. -/
def dashRunLen : List Char → Nat
  | [] => 0
  | c :: rest => if c = '-' then dashRunLen rest + 1 else 0

/-- Fuel-indexed worker for `re.split(r"-{5,}", content)`. -/
def splitDashBlocksGo : Nat → List Char → List Char → List (List Char)
  | _, [], acc => [acc.reverse]
  | 0, cs, acc => [acc.reverse ++ cs]
  | fuel + 1, c :: rest, acc =>
    if 5 ≤ dashRunLen (c :: rest) then
      acc.reverse :: splitDashBlocksGo fuel (List.drop (dashRunLen (c :: rest) - 1) rest) []
    else splitDashBlocksGo fuel rest (c :: acc)

/-- `re.split(r"-{5,}", content)`: split on maximal runs of five or more
dashes. -/
def splitDashBlocks (cs : List Char) : List (List Char) :=
  splitDashBlocksGo cs.length cs []

/-- Non-empty trimmed lines of one block. -/
def blockLines (block : String) : List String :=
  ((splitOnChar (Char.ofNat 10) block.toList).map (fun l => trimStr (String.mk l))).filter
    (fun l => l ≠ "")

/-- Fold the lines after the account-name line over the fresh account. -/
def buildAccount (name : String) (rest : List String) : Account :=
  rest.foldl processLine
    { name := name, host := none, port := none, username := none,
      password := none, folders := [] }

/-- The implicit folder given to an account with zero parsed folders. -/
def rootFolder : Folder := { label := "Root", path := "/", filters := [] }

/-- One block of the credentials file: first non-empty line is the account
name; the account is kept only when host, username and password are all
present; port defaults to 22; zero folders become the implicit root. -/
def parseBlock (block : String) : Option Account :=
  match blockLines block with
  | [] => none
  | name :: rest =>
    let acc := buildAccount name rest
    let acc2 := if acc.port.isNone then { acc with port := some 22 } else acc
    if acc2.host.isSome && acc2.username.isSome && acc2.password.isSome then
      if acc2.folders.isEmpty then some { acc2 with folders := [rootFolder] }
      else some acc2
    else none

/-- `config.load_multiple_configs_from_file`, over the file's content. -/
def load_multiple_configs_from_file (content : String) : List Account :=
  (splitDashBlocks content.toList).filterMap (fun b => parseBlock (String.mk b))

/-! ### Row builder and CLI date handling (`main.py`) -/

/-- One result row (columns "Account Name", "Folder", "Latest File Name",
"Latest File Date"). -/
structure Row where
  account_name : String
  folder : String
  latest_file_name : String
  latest_file_date : String
deriving DecidableEq, Repr

/-- Python truthiness of an optional string (`if fname and fdt:`). -/
def pyTruthy : Option String → Bool
  | none => false
  | some s => s ≠ ""

/-- `main._matches_filter`: empty/absent pattern matches everything,
otherwise case-insensitive substring. -/
def matches_filter (value : String) (pat : Option String) : Bool :=
  match pat with
  | none => true
  | some p => if p = "" then true
    else decide ((toLowerStr p).toList <:+: (toLowerStr value).toList)

/-- The remote environment: per connection parameters, whether `connect()`
raises (with which message), and the directory-listing results. -/
structure SftpWorld where
  connectErr : String → Nat → String → String → Option String
  listing : String → Nat → String → String → String → Except String (List SFTPAttr)

/-- Rows produced from the per-prefix dict of one folder (the
`for pfx_lower, (fname, fdt) in per.items()` loop).  A raised fallback
lookup aborts the loop and is converted into a single error row, keeping
the rows appended before it. -/
def prefixRows (tz : Int) (listing : String → Except String (List SFTPAttr))
    (account_name folder_label folder_path : String) :
    List (String × (Option String × Option String)) → List Row
  | [] => []
  | (pfx, pr) :: rest =>
    if pyTruthy pr.1 && pyTruthy pr.2 then
      { account_name := account_name, folder := folder_label ++ " - " ++ pfx,
        latest_file_name := pr.1.getD "", latest_file_date := pr.2.getD "" } ::
        prefixRows tz listing account_name folder_label folder_path rest
    else
      match get_latest_file_info tz listing folder_path [pfx] with
      | .error e =>
        [{ account_name := account_name, folder := folder_label,
           latest_file_name := "-", latest_file_date := "Error: " ++ e }]
      | .ok fb =>
        if pyTruthy fb.1 && pyTruthy fb.2 then
          { account_name := account_name, folder := folder_label ++ " - " ++ pfx,
            latest_file_name := fb.1.getD "", latest_file_date := fb.2.getD "" } ::
            prefixRows tz listing account_name folder_label folder_path rest
        else
          { account_name := account_name, folder := folder_label ++ " - " ++ pfx,
            latest_file_name := "-", latest_file_date := "-" } ::
            prefixRows tz listing account_name folder_label folder_path rest

/-- Rows produced for one folder of a connected account
(`main.collect_latest_file_details`, folder loop body).  `nowDay` is the
local calendar date of `datetime.datetime.now()`. -/
def folderRows (tz : Int) (listing : String → Except String (List SFTPAttr))
    (today_only previous_day : Bool) (on_date : Option Int) (nowDay : Int)
    (account_name : String) (fol : Folder) : List Row :=
  let folder_label := fol.label
  let folder_path := fol.path
  let filters := fol.filters
  if !filters.isEmpty then
    match get_latest_files_per_prefix tz listing folder_path filters
        (if today_only then on_date else none) with
    | .error e =>
      [{ account_name := account_name, folder := folder_label,
         latest_file_name := "-", latest_file_date := "Error: " ++ e }]
    | .ok per => prefixRows tz listing account_name folder_label folder_path per
  else
    let res := if today_only then
        get_latest_file_info_on_date tz listing folder_path (on_date.getD nowDay) filters
      else if previous_day then
        get_latest_file_info_before_date tz listing folder_path (on_date.getD nowDay) filters
      else get_latest_file_info tz listing folder_path filters
    match res with
    | .error e =>
      [{ account_name := account_name, folder := folder_label,
         latest_file_name := "-", latest_file_date := "Error: " ++ e }]
    | .ok r =>
      if pyTruthy r.1 && pyTruthy r.2 then
        [{ account_name := account_name, folder := folder_label,
           latest_file_name := r.1.getD "", latest_file_date := r.2.getD "" }]
      else
        let fb := if today_only || previous_day then
            match get_latest_file_info tz listing folder_path filters with
            | .error _ => ((none : Option String), (none : Option String))
            | .ok fr => fr
          else (none, none)
        if pyTruthy fb.1 && pyTruthy fb.2 then
          [{ account_name := account_name, folder := folder_label,
             latest_file_name := fb.1.getD "", latest_file_date := fb.2.getD "" }]
        else
          [{ account_name := account_name, folder := folder_label,
             latest_file_name := "-", latest_file_date := "-" }]

/-- Rows produced for one account (`main.collect_latest_file_details`,
account loop body): name filter, skip list, connection attempt (a raise
yields one connection-error row and moves on), folder filter, folder loop.
The credential fields cannot be absent for accounts produced by the config
loader; other accounts contribute no rows. -/
def accountRows (tz : Int) (world : SftpWorld)
    (account_filter folder_filter : Option String)
    (previous_day today_only : Bool) (skip_accounts : List String)
    (on_date : Option Int) (nowDay : Int) (config : Account) : List Row :=
  if !matches_filter config.name account_filter then []
  else if !skip_accounts.isEmpty &&
      skip_accounts.any (fun s => matches_filter config.name (some s)) then []
  else
    match config.host, config.username, config.password with
    | some host, some username, some password =>
      let port := config.port.getD 22
      match world.connectErr host port username password with
      | some e =>
        [{ account_name := config.name, folder := "-", latest_file_name := "-",
           latest_file_date := "Connection error: " ++ e }]
      | none =>
        let listing := world.listing host port username password
        let folders := if (match folder_filter with | some p => p != "" | none => false) then
            config.folders.filter (fun f => matches_filter f.label folder_filter)
          else config.folders
        if folders.isEmpty then
          [{ account_name := config.name,
             folder := (match folder_filter with
               | some p => if p = "" then "-" else p
               | none => "-"),
             latest_file_name := "-", latest_file_date := "Folder not configured" }]
        else
          (folders.map (folderRows tz listing today_only previous_day on_date nowDay
            config.name)).flatten
    | _, _, _ => []

/-- `main.collect_latest_file_details` over an already-loaded config list:
the rows of all accounts in order. -/
def collect_latest_file_details (tz : Int) (world : SftpWorld)
    (configs : List Account) (account_filter folder_filter : Option String)
    (previous_day today_only : Bool) (skip_accounts : List String)
    (on_date : Option Int) (nowDay : Int) : List Row :=
  configs.foldl (fun results c =>
    results ++ accountRows tz world account_filter folder_filter previous_day
      today_only skip_accounts on_date nowDay c) []

/-- The date/date-range argument handling of `main.main` (lines parsing
`--date`, `--start-date`, `--end-date`): `none` means the run is rejected
with a message before any remote work; `some none` means no date was
requested; `some (some ds)` means one collection pass per date in `ds`.
Dates are day numbers. -/
def main_resolve_dates (date start_date end_date : Option Int) :
    Option (Option (List Int)) :=
  if date.isSome || start_date.isSome || end_date.isSome then
    match date with
    | some d => some (some [d])
    | none =>
      let start := match start_date with
        | some s => some s
        | none => end_date
      let stop := match end_date with
        | some e2 => some e2
        | none => start_date
      match start, stop with
      | some s, some e2 =>
        if s > e2 then none
        else some (some ((List.range ((e2 - s).toNat + 1)).map (fun i => s + (i : Int))))
      | _, _ => none
  else some none

/-! ### Fixtures used by witnesses and counterexamples -/

/-- A regular file modified at epoch second 100. -/
def witAttrA : SFTPAttr := { filename := "a.txt", st_mode := 32768, st_mtime := 100 }

/-- A regular file modified at epoch second 200. -/
def witAttrB : SFTPAttr := { filename := "b.txt", st_mode := 32768, st_mtime := 200 }

/-- A two-file folder listing. -/
def witList : List SFTPAttr := [witAttrA, witAttrB]

/-- A listing oracle returning `witList` for every path. -/
def witListing : String → Except String (List SFTPAttr) := fun _ => Except.ok witList

/-- A listing oracle returning an empty directory for every path. -/
def emptyListing : String → Except String (List SFTPAttr) := fun _ => Except.ok []

/-- A returned filename either starts (case-insensitively) with one of the
name filters, or it was collected by the one-level subfolder fallback from a
subdirectory whose name starts (case-insensitively) with one of the filters. -/
def filterCompliant (listing : String → Except String (List SFTPAttr))
    (rf : String) (nf : List String) (name : String) : Prop :=
  (∃ s ∈ nf, startsWithStr (toLowerStr s) (toLowerStr name) = true) ∨
  (∃ dname sub, (∃ s ∈ nf, startsWithStr (toLowerStr s) (toLowerStr dname) = true) ∧
    listing (subfolderPath rf dname) = Except.ok sub ∧
    ∃ f ∈ sub, S_ISREG f.st_mode = true ∧ f.filename = name)

/-- A subdirectory entry named after a report prefix. -/
def fbBaseDir : SFTPAttr := { filename := "RevAI_Fleet", st_mode := 16384, st_mtime := 0 }

/-- A regular file in the base folder that matches no filter. -/
def fbJunk : SFTPAttr := { filename := "junk.txt", st_mode := 32768, st_mtime := 5 }

/-- The regular file inside the matching subdirectory. -/
def fbReport : SFTPAttr := { filename := "report.csv", st_mode := 32768, st_mtime := 50 }

/-- A listing oracle exercising the subfolder fallback: the base folder holds
only a matching subdirectory (plus a non-matching file), and the files live
inside the subdirectory. -/
def fbListing : String → Except String (List SFTPAttr) := fun p =>
  if p = "/base" then Except.ok [fbBaseDir, fbJunk]
  else if p = "/base/RevAI_Fleet" then Except.ok [fbReport]
  else Except.ok []

/-- A credentials file whose continuation line's only quoted segment looks
like a path (contains a slash), so it is not appended as a filter. -/
def c6content : String :=
  "Acme\nhost: example.com\nusername: u\npassword: p\nreports: /data\n\"Rev/AI\""

/-- A folder with one existing filter. -/
def c6fol : Folder := { label := "Reports", path := "/data", filters := ["Beta"] }

/-- An account in mid-parse state with one folder. -/
def c6acc : Account :=
  { name := "Acme", host := some "h", port := some 22, username := some "u",
    password := some "p", folders := [c6fol] }

/-- A minimal credentials file: one account, credentials only, no folders. -/
def c7content : String := "Acme\nhost: h.com\nusername: u\npassword: p\n"

/-- The account that `c7content` loads to (implicit root folder). -/
def c7account : Account :=
  { name := "Acme", host := some "h.com", port := some 22, username := some "u",
    password := some "p", folders := [rootFolder] }

/-- A world in which every connection attempt raises. -/
def c2world : SftpWorld :=
  { connectErr := fun _ _ _ _ => some "boom",
    listing := fun _ _ _ _ _ => Except.ok [] }

/-- An account with two configured folders. -/
def c2account : Account :=
  { name := "Acme", host := some "h", port := some 22, username := some "u",
    password := some "p",
    folders := [{ label := "A", path := "/a", filters := [] },
                { label := "B", path := "/b", filters := [] }] }

/-! ### Helper lemmas about the maximum selection -/

theorem pyMaxGo_or_mem : ∀ (xs : List SFTPAttr) (best : SFTPAttr),
    pyMaxGo best xs = best ∨ pyMaxGo best xs ∈ xs := by
  intro xs
  induction xs with
  | nil => intro best; exact Or.inl rfl
  | cons f rest ih =>
    intro best
    rw [pyMaxGo]
    by_cases h : best.st_mtime < f.st_mtime
    · simp only [if_pos h]
      rcases ih f with h2 | h2
      · exact Or.inr (by rw [h2]; exact List.mem_cons_self f rest)
      · exact Or.inr (List.mem_cons_of_mem f h2)
    · simp only [if_neg h]
      rcases ih best with h2 | h2
      · exact Or.inl h2
      · exact Or.inr (List.mem_cons_of_mem f h2)

theorem pyMaxGo_le_self : ∀ (xs : List SFTPAttr) (best : SFTPAttr),
    best.st_mtime ≤ (pyMaxGo best xs).st_mtime := by
  intro xs
  induction xs with
  | nil => intro best; exact le_refl _
  | cons f rest ih =>
    intro best
    rw [pyMaxGo]
    by_cases h : best.st_mtime < f.st_mtime
    · simp only [if_pos h]; exact le_trans (le_of_lt h) (ih f)
    · simp only [if_neg h]; exact ih best

theorem pyMaxGo_le : ∀ (xs : List SFTPAttr) (best g : SFTPAttr), g ∈ xs →
    g.st_mtime ≤ (pyMaxGo best xs).st_mtime := by
  intro xs
  induction xs with
  | nil => intro best g hg; cases hg
  | cons f rest ih =>
    intro best g hg
    rw [pyMaxGo]
    rcases List.mem_cons.mp hg with rfl | hg2
    · by_cases h : best.st_mtime < g.st_mtime
      · simp only [if_pos h]; exact pyMaxGo_le_self rest g
      · simp only [if_neg h]
        exact le_trans (le_of_not_lt h) (pyMaxGo_le_self rest best)
    · exact ih _ g hg2

theorem pyMax_mem (l : List SFTPAttr) (m : SFTPAttr) (h : pyMax l = some m) :
    m ∈ l := by
  cases l with
  | nil => simp [pyMax] at h
  | cons x xs =>
    rw [pyMax] at h
    injection h with h
    rcases pyMaxGo_or_mem xs x with h2 | h2
    · rw [← h, h2]; exact List.mem_cons_self x xs
    · rw [← h]; exact List.mem_cons_of_mem x h2

theorem pyMax_le (l : List SFTPAttr) (m : SFTPAttr) (h : pyMax l = some m) :
    ∀ g ∈ l, g.st_mtime ≤ m.st_mtime := by
  cases l with
  | nil => simp [pyMax] at h
  | cons x xs =>
    rw [pyMax] at h
    injection h with h
    intro g hg
    rcases List.mem_cons.mp hg with rfl | hg2
    · rw [← h]; exact pyMaxGo_le_self xs g
    · rw [← h]; exact pyMaxGo_le xs x g hg2

theorem pyMax_none_iff (l : List SFTPAttr) : pyMax l = none ↔ l = [] := by
  cases l with
  | nil => simp [pyMax]
  | cons x xs => simp [pyMax]

/-! ### Claim theorems: temporal selection (C3, C5, C8, C10) -/

/-- C3: for every folder, date `d` and filter list, `get_latest_file_info_on_date`
returns a file only when that file's local calendar date equals `d`, and then
it is a candidate of maximal modification time among the candidates with local
date `d`; when no candidate has local date `d` it returns `(None, None)`. -/
theorem c3_on_date_correct (tz : Int)
    (listing : String → Except String (List SFTPAttr)) (rf : String)
    (d : Int) (nf : List String) (cs : List SFTPAttr)
    (hc : collect_candidate_files listing rf nf = .ok cs) :
    (∀ name ts, get_latest_file_info_on_date tz listing rf d nf = .ok (some name, some ts) →
      ∃ f, f ∈ cs ∧ f.filename = name ∧ ts = formatTs tz f.st_mtime ∧
        localDay tz f.st_mtime = d ∧
        ∀ g, g ∈ cs → localDay tz g.st_mtime = d → g.st_mtime ≤ f.st_mtime) ∧
    ((∀ g, g ∈ cs → localDay tz g.st_mtime ≠ d) →
      get_latest_file_info_on_date tz listing rf d nf = .ok (none, none)) := by
  constructor
  · intro name ts h
    rw [get_latest_file_info_on_date, hc] at h
    by_cases hcs : cs.isEmpty
    · simp [hcs] at h
    · simp only [hcs, Bool.false_eq_true, if_false, if_neg] at h
      rcases heq : pyMax (cs.filter (fun f => localDay tz f.st_mtime = d)) with _ | latest
      · rw [heq] at h; simp at h
      · rw [heq] at h
        simp only [Except.ok.injEq, Prod.mk.injEq, Option.some.injEq] at h
        obtain ⟨hn, ht⟩ := h
        have hmem := pyMax_mem _ _ heq
        have hmem2 := List.mem_filter.mp hmem
        refine ⟨latest, hmem2.1, hn, ht.symm, of_decide_eq_true hmem2.2, ?_⟩
        intro g hg hgd
        exact pyMax_le _ _ heq g (List.mem_filter.mpr ⟨hg, decide_eq_true hgd⟩)
  · intro hnone
    rw [get_latest_file_info_on_date, hc]
    by_cases hcs : cs.isEmpty
    · simp [hcs]
    · have hfil : cs.filter (fun f => localDay tz f.st_mtime = d) = [] := by
        rw [List.filter_eq_nil_iff]
        intro g hg
        simp only [decide_eq_true_eq]
        exact hnone g hg
      simp [hcs, hfil, pyMax]

/-- Witness for C3 at a concrete listing: no candidate has local day 5, so
the on-date lookup returns `(None, None)`. -/
theorem c3_on_date_correct_witness :
    get_latest_file_info_on_date 0 witListing "/" 5 [] = .ok (none, none) :=
  (c3_on_date_correct 0 witListing "/" 5 [] witList (by rfl)).2 (by decide)

/-- C5: `get_latest_file_info_before_date` never returns a file whose local
calendar date is `≥ d`: a returned file is a candidate of maximal modification
time among candidates with local date strictly before `d`, and when no
candidate has local date before `d` the result is `(None, None)`. -/
theorem c5_before_date_correct (tz : Int)
    (listing : String → Except String (List SFTPAttr)) (rf : String)
    (d : Int) (nf : List String) (cs : List SFTPAttr)
    (hc : collect_candidate_files listing rf nf = .ok cs) :
    (∀ name ts, get_latest_file_info_before_date tz listing rf d nf = .ok (some name, some ts) →
      ∃ f, f ∈ cs ∧ f.filename = name ∧ ts = formatTs tz f.st_mtime ∧
        localDay tz f.st_mtime < d ∧ ¬(d ≤ localDay tz f.st_mtime) ∧
        ∀ g, g ∈ cs → localDay tz g.st_mtime < d → g.st_mtime ≤ f.st_mtime) ∧
    ((∀ g, g ∈ cs → ¬(localDay tz g.st_mtime < d)) →
      get_latest_file_info_before_date tz listing rf d nf = .ok (none, none)) := by
  constructor
  · intro name ts h
    rw [get_latest_file_info_before_date, hc] at h
    by_cases hcs : cs.isEmpty
    · simp [hcs] at h
    · simp only [hcs, Bool.false_eq_true, if_false, if_neg] at h
      rcases heq : pyMax (cs.filter (fun f => localDay tz f.st_mtime < d)) with _ | latest
      · rw [heq] at h; simp at h
      · rw [heq] at h
        simp only [Except.ok.injEq, Prod.mk.injEq, Option.some.injEq] at h
        obtain ⟨hn, ht⟩ := h
        have hmem := pyMax_mem _ _ heq
        have hmem2 := List.mem_filter.mp hmem
        have hlt := of_decide_eq_true hmem2.2
        refine ⟨latest, hmem2.1, hn, ht.symm, hlt, not_le_of_lt hlt, ?_⟩
        intro g hg hgd
        exact pyMax_le _ _ heq g (List.mem_filter.mpr ⟨hg, decide_eq_true hgd⟩)
  · intro hnone
    rw [get_latest_file_info_before_date, hc]
    by_cases hcs : cs.isEmpty
    · simp [hcs]
    · have hfil : cs.filter (fun f => localDay tz f.st_mtime < d) = [] := by
        rw [List.filter_eq_nil_iff]
        intro g hg
        simp only [decide_eq_true_eq]
        exact hnone g hg
      simp [hcs, hfil, pyMax]

/-- Witness for C5 at a concrete listing: both candidates have local day 0,
which is not strictly before 0, so the result is `(None, None)`. -/
theorem c5_before_date_correct_witness :
    get_latest_file_info_before_date 0 witListing "/" 0 [] = .ok (none, none) :=
  (c5_before_date_correct 0 witListing "/" 0 [] witList (by rfl)).2 (by decide)

/-- C8: the selection operations are deterministic and idempotent — applied a
second time to the identical listing-oracle, folder, filters and date (ties in
the maximal modification time included, since the result is a function of the
input), each returns exactly the same result. -/
theorem c8_selection_idempotent (tz : Int)
    (listing : String → Except String (List SFTPAttr)) (rf : String)
    (nf : List String) (d : Int) (ps : List String) (od : Option Int) :
    get_latest_file_info tz listing rf nf = get_latest_file_info tz listing rf nf ∧
    get_latest_file_info_on_date tz listing rf d nf =
      get_latest_file_info_on_date tz listing rf d nf ∧
    get_latest_file_info_before_date tz listing rf d nf =
      get_latest_file_info_before_date tz listing rf d nf ∧
    get_latest_files_per_prefix tz listing rf ps od =
      get_latest_files_per_prefix tz listing rf ps od :=
  ⟨rfl, rfl, rfl, rfl⟩

/-- C10: each single-result selection operation yields either both a filename
and a formatted timestamp, or `(None, None)`; a mixed pair never occurs, and
the timestamp is always the `MM/DD/YYYY HH:MM:SS` rendering (`formatTs`) of
some modification time. -/
theorem c10_all_or_nothing (tz : Int)
    (listing : String → Except String (List SFTPAttr)) (rf : String)
    (d : Int) (nf : List String) :
    (∀ r, get_latest_file_info tz listing rf nf = .ok r →
      r = (none, none) ∨ ∃ nm mt, r = (some nm, some (formatTs tz mt))) ∧
    (∀ r, get_latest_file_info_on_date tz listing rf d nf = .ok r →
      r = (none, none) ∨ ∃ nm mt, r = (some nm, some (formatTs tz mt))) ∧
    (∀ r, get_latest_file_info_before_date tz listing rf d nf = .ok r →
      r = (none, none) ∨ ∃ nm mt, r = (some nm, some (formatTs tz mt))) := by
  refine ⟨?_, ?_, ?_⟩
  · intro r h
    rw [get_latest_file_info] at h
    rcases hcoll : collect_candidate_files listing rf nf with e | files
    · rw [hcoll] at h; simp at h
    · rw [hcoll] at h
      dsimp only at h
      rcases heq : pyMax files with _ | latest
      · rw [heq] at h
        simp only [Except.ok.injEq] at h; exact Or.inl h.symm
      · rw [heq] at h
        simp only [Except.ok.injEq] at h
        exact Or.inr ⟨latest.filename, latest.st_mtime, h.symm⟩
  · intro r h
    rw [get_latest_file_info_on_date] at h
    rcases hcoll : collect_candidate_files listing rf nf with e | files
    · rw [hcoll] at h; simp at h
    · rw [hcoll] at h
      dsimp only at h
      by_cases hcs : files.isEmpty
      · simp only [hcs, if_true, Except.ok.injEq] at h
        exact Or.inl h.symm
      · simp only [hcs, Bool.false_eq_true, if_false] at h
        rcases heq : pyMax (files.filter (fun f => localDay tz f.st_mtime = d)) with _ | latest
        · rw [heq] at h
          simp only [Except.ok.injEq] at h; exact Or.inl h.symm
        · rw [heq] at h
          simp only [Except.ok.injEq] at h
          exact Or.inr ⟨latest.filename, latest.st_mtime, h.symm⟩
  · intro r h
    rw [get_latest_file_info_before_date] at h
    rcases hcoll : collect_candidate_files listing rf nf with e | files
    · rw [hcoll] at h; simp at h
    · rw [hcoll] at h
      dsimp only at h
      by_cases hcs : files.isEmpty
      · simp only [hcs, if_true, Except.ok.injEq] at h
        exact Or.inl h.symm
      · simp only [hcs, Bool.false_eq_true, if_false] at h
        rcases heq : pyMax (files.filter (fun f => localDay tz f.st_mtime < d)) with _ | latest
        · rw [heq] at h
          simp only [Except.ok.injEq] at h; exact Or.inl h.symm
        · rw [heq] at h
          simp only [Except.ok.injEq] at h
          exact Or.inr ⟨latest.filename, latest.st_mtime, h.symm⟩

/-- Witness for C10 at a concrete listing: the overall-latest lookup returns
the pair with both components set, matching the disjunction's right side. -/
theorem c10_all_or_nothing_witness :
    ((some "b.txt", some (formatTs 0 200)) : Option String × Option String) = (none, none) ∨
      ∃ nm mt, ((some "b.txt", some (formatTs 0 200)) : Option String × Option String) =
        (some nm, some (formatTs 0 mt)) :=
  (c10_all_or_nothing 0 witListing "/" 0 []).1 (some "b.txt", some (formatTs 0 200)) (by rfl)

/-! ### Claim theorems: per-prefix selection (C9) -/

theorem mem_pyDictInsert {α : Type} (k : String) (v : α) :
    ∀ (l : List (String × α)) (pv : String × α),
    pv ∈ pyDictInsert k v l → pv = (k, v) ∨ pv ∈ l := by
  intro l
  induction l with
  | nil =>
    intro pv hpv
    rcases List.mem_singleton.mp hpv with rfl
    exact Or.inl rfl
  | cons hd rest ih =>
    intro pv hpv
    obtain ⟨k2, v2⟩ := hd
    rw [pyDictInsert] at hpv
    by_cases hk : k2 = k
    · rw [if_pos hk] at hpv
      rcases List.mem_cons.mp hpv with rfl | h2
      · exact Or.inl (by rw [hk])
      · exact Or.inr (List.mem_cons_of_mem _ h2)
    · rw [if_neg hk] at hpv
      rcases List.mem_cons.mp hpv with rfl | h2
      · exact Or.inr (List.mem_cons_self _ _)
      · rcases ih pv h2 with h3 | h3
        · exact Or.inl h3
        · exact Or.inr (List.mem_cons_of_mem _ h3)

theorem map_fst_pyDictInsert {α : Type} (k : String) (v : α) :
    ∀ (l : List (String × α)),
    (pyDictInsert k v l).map Prod.fst =
      if k ∈ l.map Prod.fst then l.map Prod.fst else l.map Prod.fst ++ [k] := by
  intro l
  induction l with
  | nil => simp [pyDictInsert]
  | cons hd rest ih =>
    obtain ⟨k2, v2⟩ := hd
    rw [pyDictInsert]
    by_cases hk : k2 = k
    · subst hk
      simp [pyDictInsert]
    · rw [if_neg hk]
      simp only [List.map_cons, ih]
      by_cases hmem : k ∈ rest.map Prod.fst
      · rw [if_pos hmem, if_pos (List.mem_cons_of_mem _ hmem)]
      · rw [if_neg hmem, if_neg ?hnotin]
        case hnotin =>
          intro hcon
          rcases List.mem_cons.mp hcon with h2 | h2
          · exact hk h2.symm
          · exact hmem h2
        rfl

theorem singlePrefixResult_stepVal (tz : Int)
    (listing : String → Except String (List SFTPAttr)) (rf : String)
    (od : Option Int) (p : String) (files : List SFTPAttr)
    (hcoll : collect_candidate_files listing rf [p] = .ok files) :
    singlePrefixResult tz listing rf od p = .ok (stepVal tz od files) := by
  cases od with
  | none =>
    rw [singlePrefixResult, get_latest_file_info, hcoll]
    cases files with
    | nil => simp [pyMax, stepVal]
    | cons x xs => simp [pyMax, stepVal]
  | some d =>
    rw [singlePrefixResult, get_latest_file_info_on_date, hcoll, stepVal]
    by_cases hf : files.isEmpty
    · simp [hf]
    · simp only [hf, Bool.false_eq_true, if_false]
      by_cases hf2 : (files.filter (fun f => localDay tz f.st_mtime = d)).isEmpty
      · have hnil : files.filter (fun f => localDay tz f.st_mtime = d) = [] := by
          simpa using hf2
        simp [hf2, hnil, pyMax]
      · simp only [hf2, Bool.false_eq_true, if_false]
        rcases heq : pyMax (files.filter (fun f => localDay tz f.st_mtime = d)) with _ | latest
        · rfl
        · rfl

theorem perPrefixLoop_spec (tz : Int)
    (listing : String → Except String (List SFTPAttr)) (rf : String)
    (od : Option Int) :
    ∀ (ps : List String) (acc entries : List (String × (Option String × Option String))),
    perPrefixLoop tz listing rf od ps acc = .ok entries →
    (∀ pv ∈ acc, singlePrefixResult tz listing rf od pv.1 = .ok pv.2) →
    (acc.map Prod.fst).Nodup →
    ((entries.map Prod.fst).Nodup ∧
     (∀ q, q ∈ entries.map Prod.fst ↔ q ∈ acc.map Prod.fst ∨ q ∈ ps) ∧
     (∀ pv ∈ entries, singlePrefixResult tz listing rf od pv.1 = .ok pv.2)) := by
  intro ps
  induction ps with
  | nil =>
    intro acc entries hok hvals hnd
    rw [perPrefixLoop] at hok
    injection hok with hok
    subst hok
    exact ⟨hnd, fun q => by simp, hvals⟩
  | cons p rest ih =>
    intro acc entries hok hvals hnd
    rw [perPrefixLoop] at hok
    rcases hcoll : collect_candidate_files listing rf [p] with e | files
    · rw [hcoll] at hok; exact absurd hok (by simp)
    · rw [hcoll] at hok
      have hstep := singlePrefixResult_stepVal tz listing rf od p files hcoll
      have hvals2 : ∀ pv ∈ pyDictInsert p (stepVal tz od files) acc,
          singlePrefixResult tz listing rf od pv.1 = .ok pv.2 := by
        intro pv hpv
        rcases mem_pyDictInsert _ _ _ pv hpv with rfl | h2
        · simpa using hstep
        · exact hvals pv h2
      have hnd2 : ((pyDictInsert p (stepVal tz od files) acc).map Prod.fst).Nodup := by
        rw [map_fst_pyDictInsert]
        by_cases hm : p ∈ acc.map Prod.fst
        · rw [if_pos hm]; exact hnd
        · rw [if_neg hm]
          simp [List.nodup_append, hnd, hm]
      obtain ⟨h1, h2, h3⟩ := ih _ entries hok hvals2 hnd2
      refine ⟨h1, ?_, h3⟩
      intro q
      rw [h2 q, map_fst_pyDictInsert]
      by_cases hm : p ∈ acc.map Prod.fst
      · rw [if_pos hm]
        constructor
        · rintro (hq | hq)
          · exact Or.inl hq
          · exact Or.inr (List.mem_cons_of_mem _ hq)
        · rintro (hq | hq)
          · exact Or.inl hq
          · rcases List.mem_cons.mp hq with rfl | hq2
            · exact Or.inl hm
            · exact Or.inr hq2
      · rw [if_neg hm]
        constructor
        · rintro (hq | hq)
          · rcases List.mem_append.mp hq with hq2 | hq2
            · exact Or.inl hq2
            · rcases List.mem_singleton.mp hq2 with rfl
              exact Or.inr (List.mem_cons_self _ _)
          · exact Or.inr (List.mem_cons_of_mem _ hq)
        · rintro (hq | hq)
          · exact Or.inl (List.mem_append.mpr (Or.inl hq))
          · rcases List.mem_cons.mp hq with rfl | hq2
            · exact Or.inl (List.mem_append.mpr (Or.inr (List.mem_singleton.mpr rfl)))
            · exact Or.inr hq2

/-- C9 (amended): the per-prefix lookup returns exactly one result
per *distinct non-empty lower-cased* prefix (keys are exactly the lowered
non-empty prefixes, without duplicates — two prefixes that agree after
lower-casing share a single entry), and the value for each key `p` equals
the single-filter selection run with `[p]` alone, restricted to `on_date`
when given. -/
theorem c9_per_prefix_spec (tz : Int)
    (listing : String → Except String (List SFTPAttr)) (rf : String)
    (prefixes : List String) (od : Option Int)
    (entries : List (String × (Option String × Option String)))
    (hok : get_latest_files_per_prefix tz listing rf prefixes od = .ok entries) :
    (entries.map Prod.fst).Nodup ∧
    (∀ q, q ∈ entries.map Prod.fst ↔ q ∈ loweredFilters prefixes) ∧
    (∀ pv ∈ entries, singlePrefixResult tz listing rf od pv.1 = .ok pv.2) := by
  rw [ get_latest_files_per_prefix] at hok
  obtain ⟨h1, h2, h3⟩ := perPrefixLoop_spec tz listing rf od
    (loweredFilters prefixes) [] entries hok (by simp) (by simp)
  exact ⟨h1, fun q => by simpa using h2 q, h3⟩

/-- Witness for C9 at a concrete listing: the entry stored under key `"b"`
for prefix list `["B"]` equals the single-filter selection for `"b"`. -/
theorem c9_per_prefix_spec_witness :
    singlePrefixResult 0 witListing "/" none "b" =
      .ok (some "b.txt", some (formatTs 0 200)) :=
  (c9_per_prefix_spec 0 witListing "/" ["B"] none
      [("b", (some "b.txt", some (formatTs 0 200)))] (by rfl)).2.2
    ("b", (some "b.txt", some (formatTs 0 200))) (by decide)

/-- C9 counterexample: for the two-element prefix list `["A", "a"]` (two
prefixes, one lower-cased form) the per-prefix operation returns a single
dict entry, not one result per prefix. -/
theorem c9_counterexample :
    get_latest_files_per_prefix 0 emptyListing "/" ["A", "a"] none =
      .ok [("a", (none, none))] ∧
    (["A", "a"] : List String).length = 2 ∧
    ([(("a" : String), ((none : Option String), (none : Option String)))]).length = 1 :=
  ⟨by rfl, by decide, by decide⟩

/-! ### Claim theorems: name filters (C1) -/

theorem mem_collectFold (listing : String → Except String (List SFTPAttr)) (rf : String) :
    ∀ (ds : List SFTPAttr) (acc : List SFTPAttr) (x : SFTPAttr),
    x ∈ ds.foldl (fun acc d =>
      match listing (subfolderPath rf d.filename) with
      | .error _ => acc
      | .ok subentries => acc ++ subentries.filter (fun f => S_ISREG f.st_mode)) acc →
    x ∈ acc ∨ ∃ d ∈ ds, ∃ sub, listing (subfolderPath rf d.filename) = Except.ok sub ∧
      x ∈ sub.filter (fun f => S_ISREG f.st_mode) := by
  intro ds
  induction ds with
  | nil => intro acc x hx; exact Or.inl hx
  | cons d rest ih =>
    intro acc x hx
    rw [List.foldl_cons] at hx
    rcases hcase : listing (subfolderPath rf d.filename) with e | sub
    · rw [hcase] at hx
      dsimp only at hx
      rcases ih _ x hx with h | ⟨d2, hd2, hsub⟩
      · exact Or.inl h
      · exact Or.inr ⟨d2, List.mem_cons_of_mem d hd2, hsub⟩
    · rw [hcase] at hx
      dsimp only at hx
      rcases ih _ x hx with h | ⟨d2, hd2, hsub⟩
      · rcases List.mem_append.mp h with h2 | h2
        · exact Or.inl h2
        · exact Or.inr ⟨d, List.mem_cons_self d rest, sub, hcase, h2⟩
      · exact Or.inr ⟨d2, List.mem_cons_of_mem d hd2, hsub⟩

theorem mem_collected (listing : String → Except String (List SFTPAttr)) (rf : String)
    (entries : List SFTPAttr) (L : List String) (x : SFTPAttr)
    (hx : x ∈ ((entries.filter (fun d => S_ISDIR d.st_mode)).filter
        (fun d => filterMatch L d.filename)).foldl (fun acc d =>
      match listing (subfolderPath rf d.filename) with
      | .error _ => acc
      | .ok subentries => acc ++ subentries.filter (fun f => S_ISREG f.st_mode)) []) :
    ∃ dr : SFTPAttr, S_ISDIR dr.st_mode = true ∧ filterMatch L dr.filename = true ∧
      ∃ sub, listing (subfolderPath rf dr.filename) = Except.ok sub ∧
        x ∈ sub ∧ S_ISREG x.st_mode = true := by
  rcases mem_collectFold listing rf _ [] x hx with h | ⟨d, hd, sub, hsub, hxf⟩
  · cases h
  · have hd2 := List.mem_filter.mp hd
    have hd3 := List.mem_filter.mp hd2.1
    have hxf2 := List.mem_filter.mp hxf
    exact ⟨d, hd3.2, hd2.2, sub, hsub, hxf2.1, hxf2.2⟩

theorem collect_candidate_files_sound
    (listing : String → Except String (List SFTPAttr)) (rf : String)
    (nf : List String) (files : List SFTPAttr) (x : SFTPAttr)
    (hok : collect_candidate_files listing rf nf = .ok files) (hx : x ∈ files)
    (hnf : loweredFilters nf ≠ []) :
    filterMatch (loweredFilters nf) x.filename = true ∨
    ∃ dr : SFTPAttr, S_ISDIR dr.st_mode = true ∧
      filterMatch (loweredFilters nf) dr.filename = true ∧
      ∃ sub, listing (subfolderPath rf dr.filename) = Except.ok sub ∧
        x ∈ sub ∧ S_ISREG x.st_mode = true := by
  rw [collect_candidate_files] at hok
  rcases hlist : listing rf with e | entries
  · rw [hlist] at hok; exact absurd hok (by simp)
  · rw [hlist] at hok
    dsimp only at hok
    have hLb : (!(loweredFilters nf).isEmpty) = true := by
      rcases hLnil : loweredFilters nf with _ | ⟨a, as⟩
      · exact absurd hLnil hnf
      · rfl
    rw [hLb] at hok
    simp only [Bool.true_and, eq_self_iff_true, if_true] at hok
    rcases hF0 : entries.filter (fun f => S_ISREG f.st_mode) with _ | ⟨f0, f0s⟩
    · rw [hF0] at hok
      simp only [List.isEmpty_nil, Bool.not_true, Bool.false_eq_true, if_false] at hok
      split at hok
      next h3 =>
        injection hok with hok
        subst hok
        exact Or.inr (mem_collected listing rf entries (loweredFilters nf) x hx)
      next h3 =>
        injection hok with hok
        subst hok
        cases hx
    · rw [hF0] at hok
      simp only [List.isEmpty_cons, Bool.not_false, eq_self_iff_true, if_true] at hok
      split at hok
      next h2 =>
        injection hok with hok
        subst hok
        exact Or.inl (List.mem_filter.mp hx).2
      next h2 =>
        split at hok
        next h3 =>
          injection hok with hok
          subst hok
          exact Or.inr (mem_collected listing rf entries (loweredFilters nf) x hx)
        next h3 =>
          injection hok with hok
          subst hok
          cases hx

theorem filterMatch_exists (nf : List String) (nm : String)
    (h : filterMatch (loweredFilters nf) nm = true) :
    ∃ s ∈ nf, startsWithStr (toLowerStr s) (toLowerStr nm) = true := by
  rw [filterMatch, List.any_eq_true] at h
  obtain ⟨s0, hs0, hpre⟩ := h
  rw [loweredFilters, List.mem_map] at hs0
  obtain ⟨s, hs, rfl⟩ := hs0
  exact ⟨s, (List.mem_filter.mp hs).1, hpre⟩

theorem compliant_of_mem (listing : String → Except String (List SFTPAttr))
    (rf : String) (nf : List String) (files : List SFTPAttr) (x : SFTPAttr)
    (hok : collect_candidate_files listing rf nf = .ok files) (hx : x ∈ files)
    (hnfne : nf ≠ []) : filterCompliant listing rf nf x.filename := by
  by_cases hl : loweredFilters nf = []
  · obtain ⟨s, hs⟩ := List.exists_mem_of_ne_nil nf hnfne
    have hse : s = "" := by
      rw [loweredFilters] at hl
      have h1 := List.map_eq_nil_iff.mp hl
      have h2 := List.filter_eq_nil_iff.mp h1 s hs
      simpa using h2
    left
    refine ⟨s, hs, ?_⟩
    rw [hse]
    simp [startsWithStr, toLowerStr]
  · rcases collect_candidate_files_sound listing rf nf files x hok hx hl with
      hm | ⟨dr, _hdir, hmatch, sub, hsub, hxs, hreg⟩
    · exact Or.inl (filterMatch_exists nf x.filename hm)
    · obtain ⟨s, hs, hpre⟩ := filterMatch_exists nf dr.filename hmatch
      exact Or.inr ⟨dr.filename, sub, ⟨s, hs, hpre⟩, hsub, x, hxs, hreg, rfl⟩

theorem info_selected (tz : Int) (listing : String → Except String (List SFTPAttr))
    (rf : String) (nf : List String) (name : String) (tso : Option String)
    (h : get_latest_file_info tz listing rf nf = .ok (some name, tso)) :
    ∃ files x, collect_candidate_files listing rf nf = .ok files ∧ x ∈ files ∧
      x.filename = name := by
  rw [get_latest_file_info] at h
  rcases hcoll : collect_candidate_files listing rf nf with e | files
  · rw [hcoll] at h; exact absurd h (by simp)
  · rw [hcoll] at h
    dsimp only at h
    rcases heq : pyMax files with _ | latest
    · rw [heq] at h; exact absurd h (by simp)
    · rw [heq] at h
      simp only [Except.ok.injEq, Prod.mk.injEq, Option.some.injEq] at h
      exact ⟨files, latest, rfl, pyMax_mem _ _ heq, h.1⟩

theorem on_date_selected (tz : Int) (listing : String → Except String (List SFTPAttr))
    (rf : String) (d : Int) (nf : List String) (name : String) (tso : Option String)
    (h : get_latest_file_info_on_date tz listing rf d nf = .ok (some name, tso)) :
    ∃ files x, collect_candidate_files listing rf nf = .ok files ∧ x ∈ files ∧
      x.filename = name := by
  rw [get_latest_file_info_on_date] at h
  rcases hcoll : collect_candidate_files listing rf nf with e | files
  · rw [hcoll] at h; exact absurd h (by simp)
  · rw [hcoll] at h
    dsimp only at h
    by_cases hf : files.isEmpty
    · simp [hf] at h
    · simp only [hf, Bool.false_eq_true, if_false] at h
      rcases heq : pyMax (files.filter (fun f => localDay tz f.st_mtime = d)) with _ | latest
      · rw [heq] at h; exact absurd h (by simp)
      · rw [heq] at h
        simp only [Except.ok.injEq, Prod.mk.injEq, Option.some.injEq] at h
        exact ⟨files, latest, rfl, (List.mem_filter.mp (pyMax_mem _ _ heq)).1, h.1⟩

theorem before_date_selected (tz : Int) (listing : String → Except String (List SFTPAttr))
    (rf : String) (d : Int) (nf : List String) (name : String) (tso : Option String)
    (h : get_latest_file_info_before_date tz listing rf d nf = .ok (some name, tso)) :
    ∃ files x, collect_candidate_files listing rf nf = .ok files ∧ x ∈ files ∧
      x.filename = name := by
  rw [get_latest_file_info_before_date] at h
  rcases hcoll : collect_candidate_files listing rf nf with e | files
  · rw [hcoll] at h; exact absurd h (by simp)
  · rw [hcoll] at h
    dsimp only at h
    by_cases hf : files.isEmpty
    · simp [hf] at h
    · simp only [hf, Bool.false_eq_true, if_false] at h
      rcases heq : pyMax (files.filter (fun f => localDay tz f.st_mtime < d)) with _ | latest
      · rw [heq] at h; exact absurd h (by simp)
      · rw [heq] at h
        simp only [Except.ok.injEq, Prod.mk.injEq, Option.some.injEq] at h
        exact ⟨files, latest, rfl, (List.mem_filter.mp (pyMax_mem _ _ heq)).1, h.1⟩

/-- C1 (amended): for every non-empty filter list, a filename returned by any
selection operation either starts (case-insensitively) with one of the filter
strings, or it was collected by the one-level subfolder fallback from a
subdirectory whose *name* starts (case-insensitively) with one of the filters
(in which case the filename itself need not match); the per-prefix operation
satisfies the same property with the entry's singleton prefix. -/
theorem c1_name_filter_respected (tz : Int)
    (listing : String → Except String (List SFTPAttr)) (rf : String)
    (nf : List String) (d : Int) (ps : List String) (od : Option Int) :
    (∀ name tso, nf ≠ [] → get_latest_file_info tz listing rf nf = .ok (some name, tso) →
      filterCompliant listing rf nf name) ∧
    (∀ name tso, nf ≠ [] →
      get_latest_file_info_on_date tz listing rf d nf = .ok (some name, tso) →
      filterCompliant listing rf nf name) ∧
    (∀ name tso, nf ≠ [] →
      get_latest_file_info_before_date tz listing rf d nf = .ok (some name, tso) →
      filterCompliant listing rf nf name) ∧
    (∀ entries p name tso,
      get_latest_files_per_prefix tz listing rf ps od = .ok entries →
      (p, (some name, tso)) ∈ entries → filterCompliant listing rf [p] name) := by
  refine ⟨?_, ?_, ?_, ?_⟩
  · intro name tso hne h
    obtain ⟨files, x, hcoll, hxmem, rfl⟩ := info_selected tz listing rf nf name tso h
    exact compliant_of_mem listing rf nf files x hcoll hxmem hne
  · intro name tso hne h
    obtain ⟨files, x, hcoll, hxmem, rfl⟩ := on_date_selected tz listing rf d nf name tso h
    exact compliant_of_mem listing rf nf files x hcoll hxmem hne
  · intro name tso hne h
    obtain ⟨files, x, hcoll, hxmem, rfl⟩ := before_date_selected tz listing rf d nf name tso h
    exact compliant_of_mem listing rf nf files x hcoll hxmem hne
  · intro entries p name tso hok hmem
    rw [ get_latest_files_per_prefix] at hok
    obtain ⟨_h1, _h2, h3⟩ := perPrefixLoop_spec tz listing rf od
      (loweredFilters ps) [] entries hok (by simp) (by simp)
    have hp := h3 (p, (some name, tso)) hmem
    cases od with
    | some d2 =>
      rw [singlePrefixResult] at hp
      obtain ⟨files, x, hcoll, hxmem, rfl⟩ := on_date_selected tz listing rf d2 [p] name tso hp
      exact compliant_of_mem listing rf [p] files x hcoll hxmem (by simp)
    | none =>
      rw [singlePrefixResult] at hp
      obtain ⟨files, x, hcoll, hxmem, rfl⟩ := info_selected tz listing rf [p] name tso hp
      exact compliant_of_mem listing rf [p] files x hcoll hxmem (by simp)

/-- Witness for C1 at a concrete listing where the filter matches directly. -/
theorem c1_name_filter_respected_witness :
    filterCompliant witListing "/" ["b"] "b.txt" :=
  (c1_name_filter_respected 0 witListing "/" ["b"] 0 [] none).1
    "b.txt" (some (formatTs 0 200)) (by simp) (by rfl)

/-- C1 counterexample: with filter list `["RevAI_Fleet"]` the subfolder
fallback returns `report.csv`, which does not start (case-insensitively)
with any filter string — the claim's universal starts-with property fails
for fallback candidates. -/
theorem c1_counterexample :
    get_latest_file_info 0 fbListing "/base" ["RevAI_Fleet"] =
      .ok (some "report.csv", some (formatTs 0 50)) ∧
    startsWithStr (toLowerStr "RevAI_Fleet") (toLowerStr "report.csv") = false :=
  ⟨by rfl, by rfl⟩

/-! ### Claim theorems: config parser (C6, C7) -/

theorem parse_folder_value_spec (raw : String) :
    (parse_folder_value raw).1 ≠ "" ∧
    (parse_folder_value raw).2 =
      ((findQuoted (trimStr raw).toList).filter (fun s => s ≠ "")).filter
        (fun seg => seg ≠ (parse_folder_value raw).1) := by
  rw [parse_folder_value]
  dsimp only
  rcases hf : ((findQuoted (trimStr raw).toList).filter (fun s => s ≠ "")).find?
      (fun seg => decide (['/'] <+: seg.toList) || seg.toList.contains '/') with _ | seg
  · rw [hf]
    dsimp only
    by_cases hv : trimStr raw = ""
    · rw [hv]
      simp [findQuoted, findQuotedGo]
    · rw [if_neg hv, if_neg hv]
      exact ⟨hv, rfl⟩
  · rw [hf]
    dsimp only
    have hsegmem := List.mem_of_find?_eq_some hf
    have hsegne : seg ≠ "" := by
      have := List.mem_filter.mp hsegmem
      simpa using this.2
    rw [if_neg hsegne]
    exact ⟨hsegne, rfl⟩

theorem appendFoldl_spec :
    ∀ (extra fs lows : List String), lows = fs.map toLowerStr →
    ∃ added,
      (extra.foldl (fun st f => if st.2.contains (toLowerStr f) then st
        else (st.1 ++ [f], st.2 ++ [toLowerStr f])) (fs, lows)).1 = fs ++ added ∧
      (∀ s ∈ added, s ∈ extra) ∧
      (extra.foldl (fun st f => if st.2.contains (toLowerStr f) then st
        else (st.1 ++ [f], st.2 ++ [toLowerStr f])) (fs, lows)).2 =
        (fs ++ added).map toLowerStr ∧
      (∀ s ∈ extra, ∃ t ∈ (extra.foldl (fun st f => if st.2.contains (toLowerStr f) then st
        else (st.1 ++ [f], st.2 ++ [toLowerStr f])) (fs, lows)).1,
        toLowerStr t = toLowerStr s) := by
  intro extra
  induction extra with
  | nil =>
    intro fs lows hl
    exact ⟨[], by simp, by simp, by simp [hl], by simp⟩
  | cons f rest ih =>
    intro fs lows hl
    rw [List.foldl_cons]
    dsimp only
    by_cases hc : lows.contains (toLowerStr f) = true
    · simp only [hc, if_true]
      obtain ⟨added, h1, h2, h3, h4⟩ := ih fs lows hl
      refine ⟨added, h1, fun s hs => List.mem_cons_of_mem _ (h2 s hs), h3, ?_⟩
      intro s hs
      rcases List.mem_cons.mp hs with rfl | hs2
      · have hmem : toLowerStr s ∈ lows := by simpa using hc
        rw [hl] at hmem
        obtain ⟨t, ht, hteq⟩ := List.mem_map.mp hmem
        refine ⟨t, ?_, hteq⟩
        rw [h1]
        exact List.mem_append.mpr (Or.inl ht)
      · exact h4 s hs2
    · have hcf : lows.contains (toLowerStr f) = false := by
        cases hcc : lows.contains (toLowerStr f)
        · rfl
        · exact absurd hcc hc
      simp only [hcf, Bool.false_eq_true, if_false]
      have hl2 : lows ++ [toLowerStr f] = (fs ++ [f]).map toLowerStr := by
        rw [hl, List.map_append]
        rfl
      obtain ⟨added, h1, h2, h3, h4⟩ := ih (fs ++ [f]) (lows ++ [toLowerStr f]) hl2
      refine ⟨[f] ++ added, ?_, ?_, ?_, ?_⟩
      · rw [h1, List.append_assoc]
      · intro s hs
        rcases List.mem_append.mp hs with hs2 | hs2
        · rcases List.mem_singleton.mp hs2 with rfl
          exact List.mem_cons_self _ _
        · exact List.mem_cons_of_mem _ (h2 s hs2)
      · rw [h3, List.append_assoc]
      · intro s hs
        rcases List.mem_cons.mp hs with rfl | hs2
        · refine ⟨s, ?_, rfl⟩
          rw [h1]
          exact List.mem_append.mpr
            (Or.inl (List.mem_append.mpr (Or.inr (List.mem_singleton.mpr rfl))))
        · exact h4 s hs2

theorem appendFilters_spec (fol : Folder) (extra : List String) :
    ∃ added, appendFilters fol extra = { fol with filters := fol.filters ++ added } ∧
      (∀ s ∈ added, s ∈ extra) ∧
      (∀ s ∈ extra, ∃ t ∈ fol.filters ++ added, toLowerStr t = toLowerStr s) := by
  obtain ⟨added, h1, h2, _h3, h4⟩ :=
    appendFoldl_spec extra fol.filters (fol.filters.map toLowerStr) rfl
  refine ⟨added, ?_, h2, ?_⟩
  · rw [appendFilters]
    rw [h1]
  · intro s hs
    obtain ⟨t, ht, hte⟩ := h4 s hs
    rw [h1] at ht
    exact ⟨t, ht, hte⟩

theorem updateLast_append {α : Type} (f : α → α) :
    ∀ (init : List α) (x : α), updateLast f (init ++ [x]) = init ++ [f x] := by
  intro init x
  induction init with
  | nil => rfl
  | cons y ys ih =>
    rw [List.cons_append, List.cons_append]
    rcases hys : ys ++ [x] with _ | ⟨z, zs⟩
    · exact absurd hys (by simp)
    · rw [updateLast, ← hys, ih]

theorem mem_updateLast {α : Type} (f : α → α) :
    ∀ (l : List α) (x : α), x ∈ updateLast f l → x ∈ l ∨ ∃ y ∈ l, x = f y := by
  intro l
  induction l with
  | nil => intro x hx; cases hx
  | cons y ys ih =>
    intro x hx
    cases ys with
    | nil =>
      rcases List.mem_singleton.mp hx with rfl
      exact Or.inr ⟨y, List.mem_singleton.mpr rfl, rfl⟩
    | cons z zs =>
      rw [updateLast] at hx
      rcases List.mem_cons.mp hx with rfl | hx2
      · exact Or.inl (List.mem_cons_self _ _)
      · rcases ih x hx2 with h | ⟨w, hw, rfl⟩
        · exact Or.inl (List.mem_cons_of_mem _ h)
        · exact Or.inr ⟨w, List.mem_cons_of_mem _ hw, rfl⟩

/-- C6 (amended): a continuation line (no `:`, not starting with `--`, after
at least one folder) appends, deduplicated case-insensitively against the
folder's existing filters, exactly the quoted segments of the line *other
than the line's inferred path* (the first path-looking quoted segment, or the
whole trimmed line when none looks like a path) to the most recently defined
folder: every appended filter is such a segment, and every such segment is
afterwards represented case-insensitively among the folder's filters. -/
theorem c6_continuation (acc : Account) (line : String) (init : List Folder) (fol : Folder)
    (hfolders : acc.folders = init ++ [fol])
    (hdash : decide (['-', '-'] <+: line.toList) = false)
    (hcolon : line.toList.contains ':' = false) :
    ∃ added : List String,
      (processLine acc line).folders =
        init ++ [{ fol with filters := fol.filters ++ added }] ∧
      (∀ s ∈ added,
        s ∈ (findQuoted (trimStr line).toList).filter (fun t => t ≠ "") ∧
        s ≠ (parse_folder_value line).1) ∧
      (∀ s ∈ (parse_folder_value line).2,
        ∃ t ∈ fol.filters ++ added, toLowerStr t = toLowerStr s) := by
  rw [processLine]
  simp only [hdash, Bool.false_eq_true, if_false, hcolon, Bool.not_false,
    eq_self_iff_true, if_true]
  have hfne : acc.folders.isEmpty = false := by
    rw [hfolders]; cases init <;> rfl
  simp only [hfne, Bool.false_eq_true, if_false]
  by_cases hext : (parse_folder_value line).2.isEmpty = true
  · have hext2 : (parse_folder_value line).2 = [] := by simpa using hext
    simp only [hext, if_true]
    refine ⟨[], ?_, by simp, ?_⟩
    · rw [hfolders]
      simp
    · intro s hs
      rw [hext2] at hs
      cases hs
  · have hextF : (parse_folder_value line).2.isEmpty = false := by
      cases h2 : (parse_folder_value line).2.isEmpty
      · rfl
      · exact absurd h2 hext
    simp only [hextF, Bool.false_eq_true, if_false]
    obtain ⟨added, h1, h2, h3⟩ := appendFilters_spec fol (parse_folder_value line).2
    refine ⟨added, ?_, ?_, h3⟩
    · show updateLast (fun g => appendFilters g (parse_folder_value line).2) acc.folders =
        init ++ [{ fol with filters := fol.filters ++ added }]
      rw [hfolders, updateLast_append, h1]
    · intro s hs
      have hsub := h2 s hs
      have hspec := parse_folder_value_spec line
      rw [hspec.2] at hsub
      have hm := List.mem_filter.mp hsub
      exact ⟨hm.1, by simpa using hm.2⟩

/-- Witness for C6 at a concrete account and continuation line: the quoted
segment `Alpha` is appended to the folder's filters. -/
theorem c6_continuation_witness :
    ∃ added : List String,
      (processLine c6acc "\"Alpha\"").folders =
        [] ++ [{ c6fol with filters := c6fol.filters ++ added }] ∧
      (∀ s ∈ added,
        s ∈ (findQuoted (trimStr "\"Alpha\"").toList).filter (fun t => t ≠ "") ∧
        s ≠ (parse_folder_value "\"Alpha\"").1) ∧
      (∀ s ∈ (parse_folder_value "\"Alpha\"").2,
        ∃ t ∈ c6fol.filters ++ added, toLowerStr t = toLowerStr s) :=
  c6_continuation c6acc "\"Alpha\"" [] c6fol (by rfl) (by rfl) (by rfl)

/-- C6 counterexample: the continuation line `"Rev/AI"` has one quoted
segment, but because it looks like a path it is treated as the line's path
and *not* appended as a filter — the folder's filter list stays empty. -/
theorem c6_counterexample :
    (load_multiple_configs_from_file c6content).map
      (fun a => a.folders.map Folder.filters) = [[[]]] ∧
    (findQuoted (trimStr "\"Rev/AI\"").toList).filter (fun s => s ≠ "") = ["Rev/AI"] :=
  ⟨by rfl, by rfl⟩

theorem processLine_paths (acc : Account) (line : String)
    (hacc : ∀ fol ∈ acc.folders, fol.path ≠ "") :
    ∀ fol ∈ (processLine acc line).folders, fol.path ≠ "" := by
  intro fol hfol
  rw [processLine] at hfol
  dsimp only at hfol
  split at hfol
  · exact hacc fol hfol
  · split at hfol
    · split at hfol
      · exact hacc fol hfol
      · split at hfol
        · exact hacc fol hfol
        · rcases mem_updateLast _ _ fol hfol with h | ⟨y, hy, rfl⟩
          · exact hacc fol h
          · exact hacc y hy
    · repeat' split at hfol
      all_goals
        first
        | exact hacc fol hfol
        | (rcases List.mem_append.mp hfol with h | h
           · exact hacc fol h
           · rw [List.mem_singleton.mp h]
             dsimp only
             first
             | exact (parse_folder_value_spec _).1
             | exact (show ("/" : String) ≠ "" by decide))

theorem foldl_processLine_paths :
    ∀ (ls : List String) (acc : Account),
    (∀ fol ∈ acc.folders, fol.path ≠ "") →
    ∀ fol ∈ (ls.foldl processLine acc).folders, fol.path ≠ "" := by
  intro ls
  induction ls with
  | nil => intro acc hacc; exact hacc
  | cons l rest ih =>
    intro acc hacc
    rw [List.foldl_cons]
    exact ih _ (processLine_paths acc l hacc)

theorem parseBlock_spec (b : String) (a : Account) (h : parseBlock b = some a) :
    a.host.isSome = true ∧ a.username.isSome = true ∧ a.password.isSome = true ∧
    a.folders ≠ [] ∧ (∀ fol ∈ a.folders, fol.path ≠ "") ∧
    (∀ name rest, blockLines b = name :: rest →
      ((buildAccount name rest).folders = [] → a.folders = [rootFolder])) := by
  rw [parseBlock] at h
  rcases hbl : blockLines b with _ | ⟨name, rest⟩
  · rw [hbl] at h; exact absurd h (by simp)
  · rw [hbl] at h
    dsimp only at h
    have hpaths : ∀ fol ∈ (buildAccount name rest).folders, fol.path ≠ "" := by
      rw [buildAccount]
      refine foldl_processLine_paths rest _ ?_
      intro fol hf
      cases hf
    have hfh : (if (buildAccount name rest).port.isNone = true
        then { buildAccount name rest with port := some 22 }
        else buildAccount name rest).host = (buildAccount name rest).host := by
      split <;> rfl
    have hfu : (if (buildAccount name rest).port.isNone = true
        then { buildAccount name rest with port := some 22 }
        else buildAccount name rest).username = (buildAccount name rest).username := by
      split <;> rfl
    have hfp : (if (buildAccount name rest).port.isNone = true
        then { buildAccount name rest with port := some 22 }
        else buildAccount name rest).password = (buildAccount name rest).password := by
      split <;> rfl
    have hff : (if (buildAccount name rest).port.isNone = true
        then { buildAccount name rest with port := some 22 }
        else buildAccount name rest).folders = (buildAccount name rest).folders := by
      split <;> rfl
    generalize hX : (if (buildAccount name rest).port.isNone = true
        then { buildAccount name rest with port := some 22 }
        else buildAccount name rest) = X at h hfh hfu hfp hff
    split at h
    next hcred =>
      simp only [Bool.and_eq_true] at hcred
      obtain ⟨⟨hh, hu⟩, hp⟩ := hcred
      split at h
      next hempty =>
        injection h with h
        subst h
        refine ⟨hh, hu, hp, show ([rootFolder] : List Folder) ≠ [] by simp, ?_, ?_⟩
        · intro fol hf
          rcases List.mem_singleton.mp hf with rfl
          simp [rootFolder]
        · intro n2 r2 _hbl2 _hb
          rfl
      next hempty =>
        injection h with h
        subst h
        refine ⟨hh, hu, hp, ?_, ?_, ?_⟩
        · intro hnil
          apply hempty
          rw [hnil]
          rfl
        · intro fol hf
          rw [hff] at hf
          exact hpaths fol hf
        · intro n2 r2 hbl2 hbuild
          injection hbl2 with hn hr
          subst hn
          subst hr
          refine absurd ?_ hempty
          rw [hff, hbuild]
          rfl
    next hcred => exact absurd h (by simp)

/-- C7: every account returned by the config loader has host, username and
password present; an account whose block yielded zero folders carries exactly
the implicit root folder `"/"`; and every folder of every returned account
has a non-empty path. -/
theorem c7_account_invariants :
    (∀ (content : String) (a : Account), a ∈ load_multiple_configs_from_file content →
      a.host.isSome = true ∧ a.username.isSome = true ∧ a.password.isSome = true ∧
      a.folders ≠ [] ∧ ∀ fol ∈ a.folders, fol.path ≠ "") ∧
    (∀ (b : String) (name : String) (rest : List String) (a : Account),
      blockLines b = name :: rest → parseBlock b = some a →
      (buildAccount name rest).folders = [] → a.folders = [rootFolder]) := by
  constructor
  · intro content a ha
    rw [load_multiple_configs_from_file] at ha
    obtain ⟨b, _hb, hpb⟩ := List.mem_filterMap.mp ha
    obtain ⟨h1, h2, h3, h4, h5, _h6⟩ := parseBlock_spec _ a hpb
    exact ⟨h1, h2, h3, h4, h5⟩
  · intro b name rest a hbl hpb hempty
    exact (parseBlock_spec b a hpb).2.2.2.2.2 name rest hbl hempty

/-- Witness for C7 at a concrete credentials file with no folder lines: the
loaded account has all credentials and exactly the implicit root folder. -/
theorem c7_account_invariants_witness :
    c7account.host.isSome = true ∧ c7account.username.isSome = true ∧
    c7account.password.isSome = true ∧ c7account.folders ≠ [] ∧
    ∀ fol ∈ c7account.folders, fol.path ≠ "" :=
  c7_account_invariants.1 c7content c7account (by decide)

/-! ### Claim theorems: row builder and CLI dates (C2, C4) -/

theorem foldl_rows_append (g : Account → List Row) :
    ∀ (l : List Account) (init : List Row),
    l.foldl (fun r c => r ++ g c) init = init ++ l.foldl (fun r c => r ++ g c) [] := by
  intro l
  induction l with
  | nil => intro init; simp
  | cons c cs ih =>
    intro init
    rw [List.foldl_cons, List.foldl_cons, ih, ih (List.nil ++ g c)]
    simp [List.append_assoc]

/-- C2 (amended): when an account's connection attempt raises, the row
builder appends exactly *one* connection-error row for that account (folder
field `-`) in this collection pass — not one per configured folder — and
then continues: the rows of the accounts before and after it are exactly
what they would be on their own. -/
theorem c2_connection_error_row (tz : Int) (world : SftpWorld)
    (af ff : Option String) (pd to2 : Bool) (skips : List String)
    (od : Option Int) (nowDay : Int) (l1 l2 : List Account) (c : Account)
    (host username password e : String)
    (hh : c.host = some host) (hu : c.username = some username)
    (hp : c.password = some password)
    (hmatch : matches_filter c.name af = true)
    (hskip : skips.any (fun s => matches_filter c.name (some s)) = false)
    (herr : world.connectErr host (c.port.getD 22) username password = some e) :
    collect_latest_file_details tz world (l1 ++ c :: l2) af ff pd to2 skips od nowDay =
      collect_latest_file_details tz world l1 af ff pd to2 skips od nowDay ++
      [{ account_name := c.name, folder := "-", latest_file_name := "-",
         latest_file_date := "Connection error: " ++ e }] ++
      collect_latest_file_details tz world l2 af ff pd to2 skips od nowDay := by
  have hrow : accountRows tz world af ff pd to2 skips od nowDay c =
      [{ account_name := c.name, folder := "-", latest_file_name := "-",
         latest_file_date := "Connection error: " ++ e }] := by
    rw [accountRows.eq_def]
    simp only [hmatch, Bool.not_true, Bool.false_eq_true, if_false]
    simp only [hskip, Bool.and_false, Bool.false_eq_true, if_false]
    rw [hh, hu, hp]
    dsimp only
    rw [herr]
  rw [collect_latest_file_details, collect_latest_file_details,
    collect_latest_file_details, List.foldl_append, List.foldl_cons,
    foldl_rows_append _ l1, foldl_rows_append _ l2]
  rw [hrow]

/-- Witness for C2 at a concrete failing world and two-folder account. -/
theorem c2_connection_error_row_witness :
    collect_latest_file_details 0 c2world ([] ++ c2account :: []) none none
        false false [] none 0 =
      collect_latest_file_details 0 c2world [] none none false false [] none 0 ++
      [{ account_name := c2account.name, folder := "-", latest_file_name := "-",
         latest_file_date := "Connection error: " ++ "boom" }] ++
      collect_latest_file_details 0 c2world [] none none false false [] none 0 :=
  c2_connection_error_row 0 c2world none none false false [] none 0 [] []
    c2account "h" "u" "p" "boom" rfl rfl rfl (by rfl) (by rfl) (by rfl)

/-- C2 counterexample: for a failing account with *two* configured folders,
one collection pass appends a single connection-error row, not one per
folder as the claim (one error row per configured folder/date pair) states. -/
theorem c2_counterexample :
    collect_latest_file_details 0 c2world [c2account] none none false false
        [] none 0 =
      [{ account_name := "Acme", folder := "-", latest_file_name := "-",
         latest_file_date := "Connection error: boom" }] ∧
    c2account.folders.length = 2 :=
  ⟨by rfl, by rfl⟩

/-- C4 (amended): `--date` silently takes precedence over
`--start-date`/`--end-date` (the combination is not rejected), and supplying
exactly one of `--start-date`/`--end-date` is accepted with the missing
bound defaulting to the one given (a one-day range), rather than being
rejected; a run is rejected (`none`) only when the resolved start date is
after the resolved end date; with no date arguments at all, no date
restriction is applied. -/
theorem c4_date_argument_handling (d s e : Int) :
    main_resolve_dates (some d) none none = some (some [d]) ∧
    main_resolve_dates (some d) (some s) (some e) = some (some [d]) ∧
    main_resolve_dates none (some s) none = some (some [s]) ∧
    main_resolve_dates none none (some e) = some (some [e]) ∧
    (s ≤ e → main_resolve_dates none (some s) (some e) =
      some (some ((List.range ((e - s).toNat + 1)).map (fun i => s + (i : Int))))) ∧
    (e < s → main_resolve_dates none (some s) (some e) = none) ∧
    main_resolve_dates none none none = some none := by
  refine ⟨rfl, rfl, ?_, ?_, ?_, ?_, rfl⟩
  · rw [show main_resolve_dates none (some s) none =
      (if s > s then none else some (some ((List.range ((s - s).toNat + 1)).map
        (fun i => s + (i : Int))))) from rfl]
    rw [if_neg (lt_irrefl s), sub_self]
    simp [show List.range 1 = [0] from rfl]
  · rw [show main_resolve_dates none none (some e) =
      (if e > e then none else some (some ((List.range ((e - e).toNat + 1)).map
        (fun i => e + (i : Int))))) from rfl]
    rw [if_neg (lt_irrefl e), sub_self]
    simp [show List.range 1 = [0] from rfl]
  · intro hse
    rw [show main_resolve_dates none (some s) (some e) =
      (if s > e then none else some (some ((List.range ((e - s).toNat + 1)).map
        (fun i => s + (i : Int))))) from rfl]
    rw [if_neg (not_lt.mpr hse)]
  · intro hes
    rw [show main_resolve_dates none (some s) (some e) =
      (if s > e then none else some (some ((List.range ((e - s).toNat + 1)).map
        (fun i => s + (i : Int))))) from rfl]
    rw [if_pos hes]

/-- Witness for C4 at concrete dates: the inclusive range 5..9. -/
theorem c4_date_argument_handling_witness :
    main_resolve_dates none (some 5) (some 9) =
      some (some ((List.range (((9 : Int) - 5).toNat + 1)).map
        (fun i => (5 : Int) + (i : Int)))) :=
  (c4_date_argument_handling 3 5 9).2.2.2.2.1 (by decide)

/-- C4 counterexample: supplying only `--start-date` (no `--date`, no
`--end-date`) is *not* rejected — it produces a single-date run — and
`--date` combined with a range is not rejected either. -/
theorem c4_counterexample :
    main_resolve_dates none (some 5) none = some (some [5]) ∧
    main_resolve_dates none (some 5) none ≠ none ∧
    main_resolve_dates (some 3) (some 5) (some 9) = some (some [3]) :=
  ⟨by decide, by decide, by decide⟩

end FtpDaily
